import Mathlib

/-
Verification of the MLE trainer in ppgmle.py (class MLE_Hawkes_Generator).

The embedding models an event row of the input tensor as a rational triple
(time, x, y); the external Hawkes intensity model (tfgen.SpatialTemporalHawkes)
is kept abstract as a function pdf from a prefix of events and an optional
cutoff keep_latest_k to a scalar, exactly matching its use at line 47 of
ppgmle.py.  Scalars are modelled by the rationals.
-/

/-- One row of the input tensor: (time, x, y) (data_dim = 3). -/
structure Event where
  t : ℚ
  x : ℚ
  y : ℚ
deriving DecidableEq

/-- Line 42: mask_t = tf.cast(seq[:, 0] > 0, ...) — an event is valid iff its
time coordinate is strictly positive. -/
def event_valid (e : Event) : Bool := decide (0 < e.t)

/-- Line 43: trunc_seq = tf.boolean_mask(seq, mask_t) — keep exactly the valid
rows, in their original order. -/
def trunc_seq (seq : List Event) : List Event := seq.filter event_valid

/-- Line 44: seq_len = tf.shape(trunc_seq)[0]. -/
def seq_len (seq : List Event) : Nat := (trunc_seq seq).length

/-- tf.scan f over elems with an initial accumulator: returns the list of the
successive accumulator values (one per element of elems; empty elems give an
empty output). -/
def tf_scan {α β : Type} (f : β → α → β) (a0 : β) : List α → List β
  | [] => []
  | e :: es => f a0 e :: tf_scan f (f a0 e) es

/-- Line 48: tf.range(1, seq_len + 1) = [1, 2, ..., L]. -/
def scan_range (L : Nat) : List Nat := List.range' 1 L

/-- Lines 46-49: the output of the tf.scan whose step function maps the index i
to pdf(trunc_seq[:i], keep_latest_k), ignoring its accumulator; the
initial accumulator is the scalar 0. -/
def scan_out (pdf : List Event → Option Nat → ℚ) (k : Option Nat)
    (seq : List Event) : List ℚ :=
  tf_scan (fun _a i => pdf ((trunc_seq seq).take i) k) 0 (scan_range (seq_len seq))

/-- The per-sequence contribution tf.reduce_sum(tf.scan ...) of lines 46-49. -/
def seq_loglik (pdf : List Event → Option Nat → ℚ) (k : Option Nat)
    (seq : List Event) : ℚ :=
  (scan_out pdf k seq).sum

/-- Lines 39-50: loglikli starts at 0 and the loop for b in range(batch_size)
adds each sequence's reduce_sum; note the loop bound is the free (module-level)
name batch_size, passed here explicitly. -/
def log_likelihood (pdf : List Event → Option Nat → ℚ) (k : Option Nat)
    (batch_size : Nat) (input_seqs : List (List Event)) : ℚ :=
  (List.range batch_size).foldl
    (fun acc b => acc + seq_loglik pdf k (input_seqs.getD b [])) 0

/-- Line 31: self.cost = -1 * self.log_likelihood(S, keep_latest_k) / batch_size.
The divisor batch_size is the constructor parameter (ctor_bs); the loop bound
inside log_likelihood is the module-level global (global_bs). -/
def cost (pdf : List Event → Option Nat → ℚ) (k : Option Nat)
    (global_bs ctor_bs : Nat) (input_seqs : List (List Event)) : ℚ :=
  -1 * log_likelihood pdf k global_bs input_seqs / (ctor_bs : ℚ)

/-- The list of history arguments handed to the external density function
hawkes.log_conditional_pdf by the scan of lines 46-49: the slices
trunc_seq[:i] for i = 1 .. seq_len. -/
def density_call_args (seq : List Event) : List (List Event) :=
  (scan_range (seq_len seq)).map (fun i => (trunc_seq seq).take i)

/-- The first n valid (strictly positive time) events of a sequence, in their
original order — the reference description of the prefix the i-th density term
should see. -/
def first_valid_events : Nat → List Event → List Event
  | 0, _ => []
  | _ + 1, [] => []
  | n + 1, e :: es =>
      if event_valid e then e :: first_valid_events n es
      else first_valid_events (n + 1) es

/-- Line 69: n_batches = int(n_data / batch_size) — integer truncation of a
non-negative quotient, i.e. Nat division. -/
def n_batches (n_data batch_size : Nat) : Nat := n_data / batch_size

/-- Lines 80-82: idx = np.arange(batch_size * b, batch_size * (b + 1));
batch_train_ids = shuffled_ids[idx] — the b-th contiguous block of batch_size
entries of the shuffled index list. -/
def batch_train_ids (shuffled_ids : List Nat) (batch_size b : Nat) : List Nat :=
  (shuffled_ids.drop (batch_size * b)).take batch_size

/-- The union (in order) of the index blocks of all n_batches batches of one
epoch (lines 79-82). -/
def epoch_batch_ids (shuffled_ids : List Nat) (batch_size nb : Nat) : List Nat :=
  (List.range nb).flatMap (batch_train_ids shuffled_ids batch_size)

/-- Lines 79-91, one epoch of the inner batch loop over an abstract parameter
state P.  Each iteration first runs the optimizer (sess.run(self.optimizer):
a forward pass evaluating the cost at the current parameters followed by the
gradient update upd), then re-evaluates the cost at the updated parameters
(sess.run(self.cost)) and records it.  The result is the final parameter state
together with, per batch, the pair (cost value seen by the optimizer run,
recorded train_cost). -/
def run_batches {P : Type} (upd : P → P) (cost_fn : P → ℚ) :
    Nat → P → P × List (ℚ × ℚ)
  | 0, p => (p, [])
  | n + 1, p =>
      let r := run_batches upd cost_fn n (upd p)
      (r.1, (cost_fn p, cost_fn (upd p)) :: r.2)

/-- tf.train.GradientDescentOptimizer(lr).minimize(cost) applied to a single
scalar parameter: one step replaces p by p - lr * grad(p). -/
def sgd_update (lr : ℚ) (grad : ℚ → ℚ) (p : ℚ) : ℚ := p - lr * grad p

/-- Line 94: avg_train_cost = np.mean(avg_train_cost) — the sum of the recorded
batch costs divided by their number (a division by zero when no batch ran). -/
def avg_train_cost (cs : List ℚ) : ℚ := cs.sum / (cs.length : ℚ)

/-- The two kinds of operation of a train() call that touch the model
parameters: the global-variable initialization of lines 59-63 and one
optimizer step (line 86) for batch b of epoch e. -/
inductive TrainOp
  | paramInit
  | optStep (epoch : Nat) (b : Nat)
deriving DecidableEq

/-- The ordered trace of parameter-touching operations of train() (lines
59-91): the initialization exactly when pretrained is false, before any epoch,
then one optimizer step per (epoch, batch) pair in loop order. -/
def train_trace (pretrained : Bool) (epoches nb : Nat) : List TrainOp :=
  (if pretrained then [] else [TrainOp.paramInit]) ++
    (List.range epoches).flatMap
      (fun e => (List.range nb).map (fun b => TrainOp.optStep e b))

/-- The parameter state after a train() call, over an abstract state P: reset
to the initial values init_p when pretrained is false, then epoches * nb
optimizer steps. -/
def train_params {P : Type} (init_p : P) (upd : P → P) (pretrained : Bool)
    (epoches nb : Nat) (p : P) : P :=
  (List.range (epoches * nb)).foldl (fun q _ => upd q)
    (if pretrained then p else init_p)

/-- Failure mode of evaluating a Python free name. -/
inductive PyError
  | nameError
deriving DecidableEq

/-- Resolution of the free name batch_size read by log_likelihood (line 40)
and train (lines 69, 80, 95): it comes from the module-level binding (made only
by the script block at line 107), not from self.batch_size. -/
def lookup_global : Option Nat → Except PyError Nat
  | none => Except.error PyError.nameError
  | some n => Except.ok n

/-- Line 31 as executed during construction: building the cost node runs
log_likelihood, which reads the module-level batch_size; the divisor is the
constructor argument ctor_bs. -/
def build_cost (global_bs : Option Nat) (ctor_bs : Nat)
    (pdf : List Event → Option Nat → ℚ) (k : Option Nat)
    (input_seqs : List (List Event)) : Except PyError ℚ :=
  (lookup_global global_bs).map
    (fun bs => -1 * log_likelihood pdf k bs input_seqs / (ctor_bs : ℚ))

/-- Line 69 as executed inside train: n_batches also reads the module-level
batch_size. -/
def train_n_batches (global_bs : Option Nat) (n_data : Nat) :
    Except PyError Nat :=
  (lookup_global global_bs).map (fun bs => n_data / bs)

/-! ## Helper lemmas -/

/-- A tf.scan whose step function ignores the accumulator is a map, whatever
the initial accumulator. -/
theorem tf_scan_ignores_acc {α β : Type} (g : α → β) (a0 : β) (l : List α) :
    tf_scan (fun _a x => g x) a0 l = l.map g := by
  induction l generalizing a0 with
  | nil => rfl
  | cons x xs ih => simp [tf_scan, ih]

theorem scan_out_eq_map (pdf : List Event → Option Nat → ℚ) (k : Option Nat)
    (seq : List Event) :
    scan_out pdf k seq =
      (scan_range (seq_len seq)).map (fun i => pdf ((trunc_seq seq).take i) k) := by
  unfold scan_out
  exact tf_scan_ignores_acc _ 0 _

/-- Left fold of additions starting at c is c plus the sum of the images. -/
theorem foldl_add_eq {α : Type} (h : α → ℚ) (l : List α) (c : ℚ) :
    l.foldl (fun a b => a + h b) c = c + (l.map h).sum := by
  induction l generalizing c with
  | nil => simp
  | cons x xs ih => simp [ih, add_assoc]

/-- Taking i elements of the compacted sequence yields the first i valid
events of the original sequence, in order. -/
theorem take_trunc_eq_first_valid (seq : List Event) (i : Nat) :
    (trunc_seq seq).take i = first_valid_events i seq := by
  induction seq generalizing i with
  | nil => cases i <;> rfl
  | cons e es ih =>
      have hc : trunc_seq (e :: es) =
          if event_valid e then e :: trunc_seq es else trunc_seq es := by
        simp [trunc_seq, List.filter_cons]
      by_cases hv : event_valid e
      · cases i with
        | zero => simp [first_valid_events]
        | succ n =>
            rw [hc, if_pos hv, List.take_succ_cons, ih n]
            simp [first_valid_events, hv]
      · cases i with
        | zero => simp [first_valid_events]
        | succ n =>
            rw [hc, if_neg hv, ih (n + 1)]
            simp [first_valid_events, hv]

theorem mem_trunc_seq_valid {e : Event} {seq : List Event}
    (h : e ∈ trunc_seq seq) : 0 < e.t := by
  have := List.of_mem_filter h
  simpa [event_valid] using this

theorem length_trunc_seq (seq : List Event) :
    (trunc_seq seq).length = seq.countP (fun e => decide (0 < e.t)) := by
  unfold trunc_seq event_valid
  exact (List.countP_eq_length_filter _ _).symm

/-! ## Claim theorems -/

/-- C1: log_likelihood computes, for each sequence b of the batch, the terms
pdf(trunc_seq[:i], k) for i = 1 .. L_b (L_b = seq_len, the number of valid
events), sums these L_b terms into the per-sequence log-likelihood, and the
total equals the sum over the B sequences of the per-sequence sums. -/
theorem log_likelihood_is_double_sum (pdf : List Event → Option Nat → ℚ)
    (k : Option Nat) (B : Nat) (input_seqs : List (List Event)) :
    (∀ seq, seq_loglik pdf k seq =
      ((scan_range (seq_len seq)).map
        (fun i => pdf ((trunc_seq seq).take i) k)).sum) ∧
    log_likelihood pdf k B input_seqs =
      ((List.range B).map (fun b => seq_loglik pdf k (input_seqs.getD b []))).sum := by
  constructor
  · intro seq
    unfold seq_loglik
    rw [scan_out_eq_map]
  · unfold log_likelihood
    rw [foldl_add_eq]
    simp

/-- C10: the scan's step function ignores its accumulator, so the scan output
equals the map of the per-index density term over 1 .. L_b for any initial
accumulator value, the summed output equals the direct sum of those terms,
and scan-then-sum equals a plain accumulating fold. -/
theorem scan_reduces_to_fold (pdf : List Event → Option Nat → ℚ)
    (k : Option Nat) (seq : List Event) (a0 : ℚ) :
    tf_scan (fun _a i => pdf ((trunc_seq seq).take i) k) a0
        (scan_range (seq_len seq)) =
      (scan_range (seq_len seq)).map (fun i => pdf ((trunc_seq seq).take i) k) ∧
    seq_loglik pdf k seq =
      ((scan_range (seq_len seq)).map
        (fun i => pdf ((trunc_seq seq).take i) k)).sum ∧
    seq_loglik pdf k seq =
      (scan_range (seq_len seq)).foldl
        (fun acc i => acc + pdf ((trunc_seq seq).take i) k) 0 := by
  refine ⟨tf_scan_ignores_acc _ a0 _, ?_, ?_⟩
  · unfold seq_loglik
    rw [scan_out_eq_map]
  · unfold seq_loglik
    rw [scan_out_eq_map, foldl_add_eq, zero_add]

/-- C2: an event is treated as valid iff its time is strictly positive; every
event of every history passed to the density function has strictly positive
time; the number of density terms equals the count of events with positive
time; and the i-th density call receives exactly the first i valid events of
the sequence in original order. -/
theorem masking_correct (pdf : List Event → Option Nat → ℚ) (k : Option Nat)
    (seq : List Event) :
    (∀ e : Event, event_valid e = true ↔ 0 < e.t) ∧
    (∀ p ∈ density_call_args seq, ∀ e ∈ p, 0 < e.t) ∧
    (scan_out pdf k seq).length = seq.countP (fun e => decide (0 < e.t)) ∧
    (∀ i < seq_len seq,
      (density_call_args seq).get? i = some (first_valid_events (i + 1) seq)) ∧
    scan_out pdf k seq = (density_call_args seq).map (fun p => pdf p k) := by
  refine ⟨?_, ?_, ?_, ?_, ?_⟩
  · intro e
    simp [event_valid]
  · intro p hp e he
    unfold density_call_args at hp
    obtain ⟨i, _hi, rfl⟩ := List.mem_map.1 hp
    exact mem_trunc_seq_valid (List.take_subset i _ he)
  · rw [scan_out_eq_map, List.length_map]
    unfold scan_range
    rw [List.length_range']
    exact length_trunc_seq seq
  · intro i hi
    unfold density_call_args scan_range
    rw [List.get?_eq_getElem?, List.getElem?_map, List.getElem?_range' 1 1 hi]
    simp [take_trunc_eq_first_valid, Nat.add_comm 1 i]
  · rw [scan_out_eq_map]
    unfold density_call_args
    rw [List.map_map]
    rfl

/-- C2 witness at a concrete sequence holding an invalid (padding) event. -/
theorem masking_correct_witness :
    (density_call_args [⟨1, 0, 0⟩, ⟨0, 5, 5⟩, ⟨2, 1, 1⟩]).get? 1 =
      some (first_valid_events 2 [⟨1, 0, 0⟩, ⟨0, 5, 5⟩, ⟨2, 1, 1⟩]) ∧
    ((0 : ℚ) < (1 : ℚ)) := by
  refine ⟨?_, ?_⟩
  · exact (masking_correct (fun _p _k => 0) none
      [⟨1, 0, 0⟩, ⟨0, 5, 5⟩, ⟨2, 1, 1⟩]).2.2.2.1 1 (by decide)
  · exact (masking_correct (fun _p _k => 0) none
      [⟨1, 0, 0⟩, ⟨0, 5, 5⟩, ⟨2, 1, 1⟩]).2.1
      [⟨(1 : ℚ), 0, 0⟩] (by decide) ⟨1, 0, 0⟩ (by decide)

/-- C3: a sequence all of whose events are padding (non-positive time) has
valid length 0, the scan iterates over the empty range, the density function
is invoked on no history at all, and the sequence contributes exactly 0 to the
log-likelihood. -/
theorem all_padding_contributes_zero (pdf : List Event → Option Nat → ℚ)
    (k : Option Nat) (seq : List Event) (hpad : ∀ e ∈ seq, e.t ≤ 0) :
    seq_len seq = 0 ∧
    scan_range (seq_len seq) = [] ∧
    density_call_args seq = [] ∧
    scan_out pdf k seq = [] ∧
    seq_loglik pdf k seq = 0 := by
  have htr : trunc_seq seq = [] := by
    rw [trunc_seq, List.filter_eq_nil_iff]
    intro e he
    simp only [event_valid, decide_eq_true_eq]
    exact not_lt.2 (hpad e he)
  have hlen : seq_len seq = 0 := by rw [seq_len, htr]; rfl
  refine ⟨hlen, ?_, ?_, ?_, ?_⟩
  · rw [hlen]; rfl
  · unfold density_call_args
    rw [hlen]; rfl
  · rw [scan_out_eq_map, hlen]; rfl
  · unfold seq_loglik
    rw [scan_out_eq_map, hlen]; rfl

/-- C3 witness: a concrete all-padding sequence contributes zero. -/
theorem all_padding_contributes_zero_witness :
    seq_loglik (fun p _k => (p.length : ℚ) + 7) none [⟨0, 3, 3⟩, ⟨-2, 1, 1⟩] = 0 :=
  (all_padding_contributes_zero (fun p _k => (p.length : ℚ) + 7) none
    [⟨0, 3, 3⟩, ⟨-2, 1, 1⟩] (by decide)).2.2.2.2

/-! ## Helper lemmas for the training loop -/

/-- Concatenating the n successive blocks of size bs of a list yields its
first n * bs elements. -/
theorem flatMap_blocks {α : Type} (l : List α) (bs : Nat) :
    ∀ n : Nat, (List.range n).flatMap (fun b => (l.drop (bs * b)).take bs) =
      l.take (n * bs)
  | 0 => by simp
  | n + 1 => by
      rw [List.range_succ, List.flatMap_append, flatMap_blocks l bs n]
      simp only [List.flatMap_cons, List.flatMap_nil, List.append_nil]
      rw [Nat.succ_mul, List.take_add, Nat.mul_comm bs n]

theorem run_batches_fst {P : Type} (upd : P → P) (cost_fn : P → ℚ) :
    ∀ (n : Nat) (p : P), (run_batches upd cost_fn n p).1 = upd^[n] p
  | 0, _ => rfl
  | n + 1, p => by
      rw [run_batches, run_batches_fst upd cost_fn n (upd p),
        Function.iterate_succ_apply]

theorem run_batches_length {P : Type} (upd : P → P) (cost_fn : P → ℚ) :
    ∀ (n : Nat) (p : P), (run_batches upd cost_fn n p).2.length = n
  | 0, _ => rfl
  | n + 1, p => by
      rw [run_batches]
      simpa using run_batches_length upd cost_fn n (upd p)

theorem run_batches_get {P : Type} (upd : P → P) (cost_fn : P → ℚ) :
    ∀ (n b : Nat) (p : P), b < n →
      (run_batches upd cost_fn n p).2.get? b =
        some (cost_fn (upd^[b] p), cost_fn (upd^[b + 1] p))
  | n + 1, 0, p, _ => by simp [run_batches]
  | n + 1, b + 1, p, hb => by
      have ih := run_batches_get upd cost_fn n b (upd p) (by omega)
      simp only [run_batches, List.get?_cons_succ, ih,
        Function.iterate_succ_apply]

/-- Folding a constant-step update over any list iterates the update once per
element. -/
theorem foldl_const_step {P α : Type} (upd : P → P) (l : List α) (p : P) :
    l.foldl (fun q _ => upd q) p = upd^[l.length] p := by
  induction l generalizing p with
  | nil => rfl
  | cons x xs ih => simp [ih, Function.iterate_succ_apply]

theorem paramInit_not_mem_steps (epoches nb : Nat) :
    TrainOp.paramInit ∉
      (List.range epoches).flatMap
        (fun e => (List.range nb).map (fun b => TrainOp.optStep e b)) := by
  intro hmem
  rw [List.mem_flatMap] at hmem
  obtain ⟨e, _he, hmem⟩ := hmem
  rw [List.mem_map] at hmem
  obtain ⟨b, _hb, hcontr⟩ := hmem
  exact TrainOp.noConfusion hcontr

/-- C4: the cost is the negated total log-likelihood divided by the batch size
B, and for positive B the cost ordering is the reverse of the log-likelihood
ordering, so minimizing cost maximizes likelihood. -/
theorem cost_neg_avg_loglik (pdf : List Event → Option Nat → ℚ) (k : Option Nat)
    (B : Nat) (seqs1 seqs2 : List (List Event)) (hB : 0 < B) :
    cost pdf k B B seqs1 = -(log_likelihood pdf k B seqs1) / (B : ℚ) ∧
    (cost pdf k B B seqs1 ≤ cost pdf k B B seqs2 ↔
      log_likelihood pdf k B seqs2 ≤ log_likelihood pdf k B seqs1) := by
  have hBQ : (0 : ℚ) < (B : ℚ) := by exact_mod_cast hB
  constructor
  · unfold cost
    rw [neg_one_mul]
  · unfold cost
    rw [neg_one_mul, neg_one_mul, div_le_div_iff_of_pos_right hBQ, neg_le_neg_iff]

/-- C4 witness at batch size 1 and a concrete batch. -/
theorem cost_neg_avg_loglik_witness :
    cost (fun p _k => (p.length : ℚ)) none 1 1 [[⟨1, 0, 0⟩]] =
      -(log_likelihood (fun p _k => (p.length : ℚ)) none 1 [[⟨1, 0, 0⟩]]) /
        ((1 : Nat) : ℚ) :=
  (cost_neg_avg_loglik (fun p _k => (p.length : ℚ)) none 1 [[⟨1, 0, 0⟩]]
    [[⟨1, 0, 0⟩]] (by decide)).1

/-- C5: with n_batches = floor(n_data / batch_size) and the shuffled ids a
permutation of 0..n_data-1, the concatenation of the n_batches contiguous
blocks of batch_size indices is exactly the first n_batches * batch_size
elements of the shuffled list, each block has exactly batch_size indices, the
union has no repeats, and the remainder after those blocks is dropped. -/
theorem epoch_partition (n_data bs : Nat) (shuffled_ids : List Nat)
    (hperm : shuffled_ids.Perm (List.range n_data)) :
    epoch_batch_ids shuffled_ids bs (n_batches n_data bs) =
      shuffled_ids.take (n_batches n_data bs * bs) ∧
    (∀ b < n_batches n_data bs, (batch_train_ids shuffled_ids bs b).length = bs) ∧
    (epoch_batch_ids shuffled_ids bs (n_batches n_data bs)).Nodup ∧
    epoch_batch_ids shuffled_ids bs (n_batches n_data bs) ++
      shuffled_ids.drop (n_batches n_data bs * bs) = shuffled_ids := by
  have hlen : shuffled_ids.length = n_data := by
    rw [hperm.length_eq, List.length_range]
  have hunion : epoch_batch_ids shuffled_ids bs (n_batches n_data bs) =
      shuffled_ids.take (n_batches n_data bs * bs) :=
    flatMap_blocks shuffled_ids bs (n_batches n_data bs)
  refine ⟨hunion, ?_, ?_, ?_⟩
  · intro b hb
    have hbs : 0 < bs := by
      rcases Nat.eq_zero_or_pos bs with h0 | h0
      · rw [n_batches, h0, Nat.div_zero] at hb
        exact absurd hb (Nat.not_lt_zero b)
      · exact h0
    have hmul : (b + 1) * bs ≤ n_data :=
      (Nat.le_div_iff_mul_le hbs).1 (Nat.succ_le_of_lt hb)
    have hle : bs * b + bs ≤ shuffled_ids.length := by
      rw [hlen]
      calc bs * b + bs = (b + 1) * bs := by ring
        _ ≤ n_data := hmul
    rw [batch_train_ids, List.length_take, List.length_drop]
    omega
  · rw [hunion]
    exact (List.take_sublist _ _).nodup
      (hperm.nodup_iff.2 (List.nodup_range n_data))
  · rw [hunion]
    exact List.take_append_drop _ _

/-- C5 witness: 3 data points, batch size 2, shuffled ids [2, 0, 1]: the one
batch holds the first 2 shuffled ids and the remainder [1] is dropped. -/
theorem epoch_partition_witness :
    epoch_batch_ids [2, 0, 1] 2 (n_batches 3 2) =
      [2, 0, 1].take (n_batches 3 2 * 2) ∧
    epoch_batch_ids [2, 0, 1] 2 (n_batches 3 2) ++
      [2, 0, 1].drop (n_batches 3 2 * 2) = [2, 0, 1] := by
  refine ⟨(epoch_partition 3 2 [2, 0, 1] (by decide)).1,
    (epoch_partition 3 2 [2, 0, 1] (by decide)).2.2.2⟩

/-- C6: when n_data < batch_size, n_batches = 0, the batch loop performs zero
optimizer steps (parameters untouched, no cost recorded), and the epoch's
average is the mean of an empty list — a division by zero — with no explicit
error. -/
theorem insufficient_data_silent (n_data bs : Nat) (h : n_data < bs)
    (P : Type) (upd : P → P) (cost_fn : P → ℚ) (p : P) :
    n_batches n_data bs = 0 ∧
    run_batches upd cost_fn (n_batches n_data bs) p = (p, []) ∧
    ((run_batches upd cost_fn (n_batches n_data bs) p).2.map Prod.snd).length = 0 ∧
    avg_train_cost ((run_batches upd cost_fn (n_batches n_data bs) p).2.map Prod.snd)
      = (0 : ℚ) / (0 : ℚ) := by
  have h0 : n_batches n_data bs = 0 := Nat.div_eq_of_lt h
  rw [h0]
  refine ⟨rfl, rfl, rfl, ?_⟩
  show avg_train_cost [] = (0 : ℚ) / (0 : ℚ)
  rw [avg_train_cost]
  norm_num

/-- C6 witness: 3 sequences with batch size 5. -/
theorem insufficient_data_silent_witness :
    n_batches 3 5 = 0 ∧
    run_batches (fun q => q + 1) id (n_batches 3 5) (0 : ℚ) = (0, []) :=
  ⟨(insufficient_data_silent 3 5 (by decide) ℚ (fun q => q + 1) id 0).1,
   (insufficient_data_silent 3 5 (by decide) ℚ (fun q => q + 1) id 0).2.1⟩

/-- C7 counterexample: with cost p * p, gradient 2p and learning rate 1/2,
one batch step from parameter 1 records the pair (1, 0): the optimizer's
internal evaluation saw cost 1 — the cost at the pre-update parameter 1 — while
the cost at the post-update parameter 0 is the recorded 0, and 1 ≠ 0, so the
two evaluations are not against the same post-update parameters. -/
theorem cost_eval_twice_counterexample :
    (run_batches (sgd_update (1 / 2) (fun p => 2 * p)) (fun p => p * p) 1
        (1 : ℚ)).2 = [(1, 0)] ∧
    ((1 : ℚ), (0 : ℚ)).1 ≠ ((1 : ℚ), (0 : ℚ)).2 := by
  constructor
  · norm_num [run_batches, sgd_update]
  · norm_num

/-- C7 amended: per batch step the cost is evaluated twice, but the optimizer's
internal evaluation is against the pre-update parameters (b prior updates)
while the explicit recomputation — the recorded per-batch training cost — is
against the post-update parameters (b + 1 updates), so only the recorded cost
reflects the parameters after the update. -/
theorem cost_eval_twice (P : Type) (upd : P → P) (cost_fn : P → ℚ) (p : P)
    (n b : Nat) (hb : b < n) :
    (run_batches upd cost_fn n p).2.get? b =
      some (cost_fn (upd^[b] p), cost_fn (upd^[b + 1] p)) ∧
    (run_batches upd cost_fn n p).2.length = n ∧
    (run_batches upd cost_fn n p).1 = upd^[n] p :=
  ⟨run_batches_get upd cost_fn n b p hb,
   run_batches_length upd cost_fn n p,
   run_batches_fst upd cost_fn n p⟩

/-- C7 amended witness: two steps of p ↦ p + 1 from 0 with cost the identity:
batch 1 logs implicit cost 1 (pre-update) and recorded cost 2 (post-update). -/
theorem cost_eval_twice_witness :
    (run_batches (fun q => q + 1) id 2 (0 : ℚ)).2.get? 1 =
      some (id ((fun q => q + 1)^[1] (0 : ℚ)),
            id ((fun q => q + 1)^[1 + 1] (0 : ℚ))) :=
  (cost_eval_twice ℚ (fun q => q + 1) id 0 2 1 (by decide)).1

/-- C8: in a train call the parameters are reset to their initial values iff
the warm-start (pretrained) flag is false; the initialization appears exactly
once and only at the very front of the operation trace, before every optimizer
step; and the final parameters arise from the (possibly reset) starting
parameters by optimizer steps alone. -/
theorem warm_start_init (pretrained : Bool) (epoches nb : Nat)
    (P : Type) (init_p : P) (upd : P → P) (p : P) :
    (train_trace pretrained epoches nb).count TrainOp.paramInit =
      (if pretrained then 0 else 1) ∧
    (TrainOp.paramInit ∈ train_trace pretrained epoches nb ↔ pretrained = false) ∧
    (∀ i, (train_trace pretrained epoches nb).get? i = some TrainOp.paramInit →
      i = 0 ∧ pretrained = false) ∧
    train_params init_p upd pretrained epoches nb p =
      upd^[epoches * nb] (if pretrained then p else init_p) := by
  have hsteps := paramInit_not_mem_steps epoches nb
  refine ⟨?_, ?_, ?_, ?_⟩
  · rw [train_trace, List.count_append]
    rw [List.count_eq_zero.2 hsteps]
    cases pretrained <;> simp
  · rw [train_trace, List.mem_append]
    cases pretrained <;> simp [hsteps]
  · intro i hi
    cases pretrained with
    | false =>
        refine ⟨?_, rfl⟩
        cases i with
        | zero => rfl
        | succ j =>
            exfalso
            rw [train_trace] at hi
            simp only [if_neg Bool.false_ne_true, List.cons_append,
              List.nil_append, List.get?_cons_succ] at hi
            exact hsteps (List.get?_mem hi)
    | true =>
        exfalso
        rw [train_trace] at hi
        simp only [if_pos rfl, List.nil_append] at hi
        exact hsteps (List.get?_mem hi)
  · rw [train_params, foldl_const_step, List.length_range]

/-- C8 witness: a cold-start run of 2 epochs of 3 batches initializes exactly
once, at trace position 0. -/
theorem warm_start_init_witness :
    (train_trace false 2 3).count TrainOp.paramInit = 1 ∧
    ((0 : Nat) = 0 ∧ false = false) :=
  ⟨(warm_start_init false 2 3 ℚ 1 id 0).1,
   (warm_start_init false 2 3 ℚ 1 id 0).2.2.1 0 (by decide)⟩

/-- C9: log_likelihood and train read the free module-level name batch_size,
not self.batch_size: with no module-level binding, building the cost raises a
NameError (and so would the batch count), and with a module-level binding g the
number of sequences scanned by the cost graph and the number of batches per
epoch both follow g — the constructor argument ctor_bs only appears as the
divisor. -/
theorem global_batch_size_read (pdf : List Event → Option Nat → ℚ)
    (k : Option Nat) (ctor_bs n_data : Nat) (input_seqs : List (List Event)) :
    build_cost none ctor_bs pdf k input_seqs = Except.error PyError.nameError ∧
    train_n_batches none n_data = Except.error PyError.nameError ∧
    (∀ g : Nat, build_cost (some g) ctor_bs pdf k input_seqs =
      Except.ok (-1 * ((List.range g).map
        (fun b => seq_loglik pdf k (input_seqs.getD b []))).sum / (ctor_bs : ℚ))) ∧
    (∀ g : Nat, train_n_batches (some g) n_data = Except.ok (n_data / g)) := by
  refine ⟨rfl, rfl, ?_, fun g => rfl⟩
  intro g
  rw [build_cost, lookup_global]
  simp only [Except.map]
  rw [log_likelihood, foldl_add_eq, zero_add]

